import Mathlib

/-!
Verification development for `analyze_safetensors.py`, a single-pass analyzer
of safetensors files: it reads an 8-byte little-endian header length, parses
the following bytes as a JSON header, aggregates tensor element counts per
dtype (skipping the reserved `__metadata__` key), and prints a distribution
report.  The Python code is shallowly embedded below: JSON values become an
inductive type, the mutable aggregation loop becomes explicit state passing,
fatal Python exceptions become an error type, and the float percentage is
idealized as exact rational rounding to two decimals.
-/

namespace STA

/-- JSON values as produced by parsing the header. -/
inductive Json where
  | null
  | bool (b : Bool)
  | num (n : Int)
  | str (s : String)
  | arr (elems : List Json)
  | obj (fields : List (String × Json))
deriving Repr

/-- Scalar (hashable) JSON values: the only values Python accepts as dict
keys, hence the only possible keys of the `dtypes` bucket mapping.
(Python's cross-type key equality `True == 1` is out of scope: every claim
uses text dtypes.) -/
inductive JAtom where
  | null
  | bool (b : Bool)
  | num (n : Int)
  | str (s : String)
deriving DecidableEq, Repr

/-- Converts a JSON value to a hashable scalar; `none` for lists and dicts,
which Python rejects as dict keys with a `TypeError`. -/
def toAtom : Json → Option JAtom
  | .null => some .null
  | .bool b => some (.bool b)
  | .num n => some (.num n)
  | .str s => some (.str s)
  | .arr _ => none
  | .obj _ => none

/-- Fatal conditions of the program: each corresponds to a Python exception
(or to the explicit `sys.exit(1)` for the short-file check); any of them
terminates the process with exit status 1. -/
inductive Err where
  | fileTooShort
  | malformedHeader (msg : String)
  | attributeError
  | keyError (k : String)
  | typeError
  | zeroDivisionError
deriving DecidableEq, Repr

/-- State of the aggregation loop: the `dtypes` dict (an insertion-ordered
association list, as Python dicts are) and the running `total_elements`. -/
structure AggState where
  dtypes : List (JAtom × Int)
  total : Int
deriving Repr

/-- Python dict lookup `fields[k]` result on the parsed JSON object fields
(JSON objects parse to dicts with unique keys). -/
def objGet (fs : List (String × Json)) (k : String) : Option Json :=
  match fs with
  | [] => none
  | p :: rest => if p.1 = k then some p.2 else objGet rest k

/-- Embeds `value[k]` for a string key `k`: a `KeyError` on a dict without
the key, a `TypeError` on a non-dict value. -/
def getItem (v : Json) (k : String) : Except Err Json :=
  match v with
  | .obj fs =>
    match objGet fs k with
    | some j => .ok j
    | none => .error (.keyError k)
  | _ => .error .typeError

/-- Reads a JSON array's elements as integers; ill-typed dimensions are
modelled as an immediate `TypeError` (in Python the error surfaces inside
the multiplication loop, but it is equally fatal there). -/
def dimsOf : List Json → Except Err (List Int)
  | [] => .ok []
  | .num n :: rest =>
    match dimsOf rest with
    | .ok ds => .ok (n :: ds)
    | .error e => .error e
  | _ :: _ => .error .typeError

/-- Embeds `shape = value['shape']` followed by iterating it as a sequence
of integer dimensions. -/
def getShape (v : Json) : Except Err (List Int) :=
  match getItem v "shape" with
  | .ok (.arr xs) => dimsOf xs
  | .ok _ => .error .typeError
  | .error e => .error e

/-- Embeds the loop `num_elements = 1; for dim in shape: num_elements *= dim`. -/
def numElements (dims : List Int) : Int :=
  dims.foldl (fun acc d => acc * d) 1

/-- Lookup in the `dtypes` bucket association list (`dtypes.get(dtype, 0)`
returns the found count, or signals absence). -/
def alistGet (l : List (JAtom × Int)) (d : JAtom) : Option Int :=
  match l with
  | [] => none
  | p :: rest => if p.1 = d then some p.2 else alistGet rest d

/-- In-place update of an existing bucket, preserving insertion order, as
Python dict assignment does for a present key. -/
def alistSet (l : List (JAtom × Int)) (d : JAtom) (c : Int) : List (JAtom × Int) :=
  match l with
  | [] => []
  | p :: rest => if p.1 = d then (d, c) :: rest else p :: alistSet rest d c

/-- Embeds `dtypes[dtype] = dtypes.get(dtype, 0) + num_elements`: a
`TypeError` if the key is unhashable, otherwise an update of the existing
bucket or an append of a fresh one (first-seen order). -/
def bucketAdd (l : List (JAtom × Int)) (d : Json) (n : Int) :
    Except Err (List (JAtom × Int)) :=
  match toAtom d with
  | none => .error .typeError
  | some a =>
    match alistGet l a with
    | some c => .ok (alistSet l a (c + n))
    | none => .ok (l ++ [(a, n)])

/-- One iteration of the aggregation loop over a header entry `(key, value)`:
skip `__metadata__`, otherwise read `dtype` and `shape`, compute the element
count, and update the bucket mapping and the grand total. -/
def aggStep (st : AggState) (kv : String × Json) : Except Err AggState :=
  if kv.1 = "__metadata__" then .ok st
  else
    match getItem kv.2 "dtype" with
    | .error e => .error e
    | .ok d =>
      match getShape kv.2 with
      | .error e => .error e
      | .ok dims =>
        match bucketAdd st.dtypes d (numElements dims) with
        | .error e => .error e
        | .ok dts => .ok { dtypes := dts, total := st.total + numElements dims }

/-- The aggregation loop from an arbitrary starting state. -/
def aggregateFrom (st : AggState) : List (String × Json) → Except Err AggState
  | [] => .ok st
  | kv :: rest =>
    match aggStep st kv with
    | .error e => .error e
    | .ok st' => aggregateFrom st' rest

/-- Embeds the whole `for key, value in header.items():` aggregation loop,
starting from `dtypes = {}` and `total_elements = 0`. -/
def aggregate (header : List (String × Json)) : Except Err AggState :=
  aggregateFrom ⟨[], 0⟩ header

/-- Python `str()` rendering of a bucket key, as interpolated by the f-string
in the report line (claims only exercise the text case). -/
def pyStr : JAtom → String
  | .str s => s
  | .num n => toString n
  | .bool true => "True"
  | .bool false => "False"
  | .null => "None"

/-- Decimal digit character for `n % 10`. -/
def digitChar (n : Nat) : Char :=
  Char.ofNat (48 + n % 10)

/-- Renders a count of hundredths as a decimal numeral with exactly two
digits after the point, as `%.2f` does. -/
def twoDecString (h : Int) : String :=
  (if h < 0 then "-" else "") ++ toString (h.natAbs / 100) ++ "." ++
    String.mk [digitChar (h.natAbs / 10 % 10), digitChar (h.natAbs % 10)]

/-- Rounds `num / den` (for positive `den`) to the nearest integer, ties to
even, as float formatting does. -/
def roundHalfEven (num den : Int) : Int :=
  let q := num.ediv den
  let r := num.emod den
  if 2 * r < den then q
  else if den < 2 * r then q + 1
  else if q.emod 2 = 0 then q else q + 1

/-- Embeds `count/total_elements*100` formatted with `:.2f`: the percentage
as an exact rational, rounded to hundredths and printed with two decimals. -/
def formatPct (count total : Int) : String :=
  twoDecString (roundHalfEven (count * 10000) total)

/-- The report line `f"{dtype}: {count} elements ({count/total*100:.2f}%)"`. -/
def fmtLine (total : Int) (p : JAtom × Int) : String :=
  pyStr p.1 ++ ": " ++ toString p.2 ++ " elements (" ++ formatPct p.2 total ++ "%)"

/-- Embeds the report loop `for dtype, count in dtypes.items(): print(...)`:
each iteration divides by `total_elements`, so a zero total raises
`ZeroDivisionError` at the first bucket (an empty mapping never divides). -/
def reportLines (total : Int) : List (JAtom × Int) → Except Err (List String)
  | [] => .ok []
  | p :: rest =>
    if total = 0 then .error .zeroDivisionError
    else
      match reportLines total rest with
      | .error e => .error e
      | .ok ls => .ok (fmtLine total p :: ls)

/-- Embeds everything after `json.loads`: print `"\nTensor analysis:"`, run
the aggregation loop, print the distribution section header, run the report
loop.  The first component collects the `print` calls issued before the run
ends; the second is `ok` for a clean exit and carries the fatal condition
otherwise. -/
def analyzeAndReport (header : List (String × Json)) :
    List String × Except Err Unit :=
  match aggregate header with
  | .error e => (["\nTensor analysis:"], .error e)
  | .ok st =>
    match reportLines st.total st.dtypes with
    | .error e =>
      (["\nTensor analysis:", "\nData Type Distribution (by number of elements):"],
        .error e)
    | .ok ls =>
      ("\nTensor analysis:" :: "\nData Type Distribution (by number of elements):" :: ls,
        .ok ())

/-- Process exit status: 0 on a clean run, 1 for `sys.exit(1)` and for any
uncaught exception. -/
def exitOf : Except Err Unit → Nat
  | .ok _ => 0
  | .error _ => 1

/-- Observable outcome of a whole run: the `print` calls issued, the final
status, and the sizes of the `f.read` calls performed. -/
structure RunResult where
  stdout : List String
  exits : Except Err Unit
  reads : List Nat
deriving Repr

/-- Embeds `struct.unpack("<Q", bytes)[0]`: the first eight bytes as an
unsigned 64-bit little-endian integer. -/
def readLE64 (bs : List Nat) : Nat :=
  (bs.take 8).foldr (fun b acc => b + 256 * acc) 0

/-- Embeds the whole program over the file's bytes, parametrized by the JSON
text parser (`json.loads`, which is library code): read 8 bytes and fail
with `File too short` when fewer are available, decode the header length
`H`, print it, read `H` further bytes (fewer remain silently, as `f.read`
does), parse them, require a JSON object (`.items()` on anything else raises
`AttributeError`), then aggregate and report. -/
def runWithParser (parse : List Nat → Except String Json) (file : List Nat) :
    RunResult :=
  let first8 := file.take 8
  if first8.length ≠ 8 then
    { stdout := ["File too short"], exits := .error .fileTooShort, reads := [8] }
  else
    let H := readLE64 first8
    let headerBytes := (file.drop 8).take H
    let sizeLine := "Header size: " ++ toString H
    match parse headerBytes with
    | .error e =>
      { stdout := [sizeLine], exits := .error (.malformedHeader e), reads := [8, H] }
    | .ok (.obj entries) =>
      let res := analyzeAndReport entries
      { stdout := sizeLine :: res.1, exits := res.2, reads := [8, H] }
    | .ok _ =>
      { stdout := [sizeLine], exits := .error .attributeError, reads := [8, H] }

/-- Exit status of a run. -/
def exitCode (r : RunResult) : Nat :=
  exitOf r.exits

/-! Spec-side notions: well-formedness of a header, the grand total the spec
computes, and the first-seen order of dtypes, written to compare the
aggregation loop against the spec's statements. -/

/-- Whether a JSON value is a non-negative integer dimension. -/
def isNonnegNum : Json → Bool
  | .num n => decide (0 ≤ n)
  | _ => false

/-- Whether a header value is a well-formed tensor descriptor: a JSON object
with a text `dtype` and a `shape` that is an array of non-negative integers. -/
def isWFDesc (v : Json) : Bool :=
  match v with
  | .obj fs =>
    (match objGet fs "dtype" with
     | some (.str _) => true
     | _ => false)
    && (match objGet fs "shape" with
        | some (.arr xs) => xs.all isNonnegNum
        | _ => false)
  | _ => false

/-- Whether a header entry is acceptable: the reserved metadata key, or a
well-formed tensor descriptor. -/
def entryWF (kv : String × Json) : Bool :=
  decide (kv.1 = "__metadata__") || isWFDesc kv.2

/-- Whether the whole header is well-formed. -/
def isWFHeader (h : List (String × Json)) : Bool :=
  h.all entryWF

/-- Reads an integer out of a JSON value, when it is one. -/
def jnum : Json → Option Int
  | .num n => some n
  | _ => none

/-- The integer dimensions declared by an entry's `shape` field (spec-side
reading; on a well-formed descriptor it is exactly the shape array). -/
def shapeDims (v : Json) : List Int :=
  match v with
  | .obj fs =>
    match objGet fs "shape" with
    | some (.arr xs) => xs.filterMap jnum
    | _ => []
  | _ => []

/-- The grand total the spec prescribes: the sum, over non-metadata entries,
of the product of the entry's shape dimensions (empty shape contributes 1). -/
def specGrandTotal : List (String × Json) → Int
  | [] => 0
  | kv :: rest =>
    (if kv.1 = "__metadata__" then 0 else (shapeDims kv.2).prod) + specGrandTotal rest

/-- The bucket key an entry's `dtype` field yields (spec-side reading). -/
def dtypeAtom (v : Json) : JAtom :=
  match v with
  | .obj fs =>
    match objGet fs "dtype" with
    | some j => (toAtom j).getD (.str "")
    | none => .str ""
  | _ => .str ""

/-- Folds the first-seen order of dtypes over header entries, starting from
an already-seen list: a dtype is appended the first time it occurs among
non-metadata entries. -/
def firstSeenFrom (acc : List JAtom) : List (String × Json) → List JAtom
  | [] => acc
  | kv :: rest =>
    if kv.1 = "__metadata__" then firstSeenFrom acc rest
    else
      firstSeenFrom
        (if dtypeAtom kv.2 ∈ acc then acc else acc ++ [dtypeAtom kv.2]) rest

/-- The first-seen order of dtypes across a header. -/
def firstSeenDtypes (h : List (String × Json)) : List JAtom :=
  firstSeenFrom [] h

/-- Sum of all per-dtype bucket counts. -/
def bucketSum (l : List (JAtom × Int)) : Int :=
  (l.map Prod.snd).sum

/-! Helper lemmas about the embedded operations. -/

theorem alistSet_map_fst (l : List (JAtom × Int)) (a : JAtom) (c : Int) :
    (alistSet l a c).map Prod.fst = l.map Prod.fst := by
  induction l with
  | nil => rfl
  | cons p rest ih =>
    by_cases hp : p.1 = a
    · simp [alistSet, hp]
    · simp [alistSet, hp, ih]

theorem alistGet_some_sum (l : List (JAtom × Int)) (a : JAtom) (c n : Int)
    (h : alistGet l a = some c) :
    bucketSum (alistSet l a (c + n)) = bucketSum l + n := by
  induction l with
  | nil => simp [alistGet] at h
  | cons p rest ih =>
    by_cases hp : p.1 = a
    · rw [alistGet, if_pos hp] at h
      injection h with h
      subst h
      simp [alistSet, hp, bucketSum]
      ring
    · rw [alistGet, if_neg hp] at h
      have := ih h
      simp [alistSet, hp, bucketSum] at *
      omega

theorem alistGet_none_iff (l : List (JAtom × Int)) (a : JAtom) :
    alistGet l a = none ↔ a ∉ l.map Prod.fst := by
  induction l with
  | nil => simp [alistGet]
  | cons p rest ih =>
    by_cases hp : p.1 = a
    · simp [alistGet, hp]
    · simp only [alistGet, if_neg hp, ih, List.map_cons, List.mem_cons]
      constructor
      · rintro hna (rfl | hmem)
        · exact hp rfl
        · exact hna hmem
      · intro hn
        exact fun hmem => hn (Or.inr hmem)

theorem alistGet_mem (l : List (JAtom × Int)) (a : JAtom) (c : Int)
    (h : alistGet l a = some c) : (a, c) ∈ l := by
  induction l with
  | nil => simp [alistGet] at h
  | cons p rest ih =>
    obtain ⟨b, d⟩ := p
    by_cases hp : b = a
    · rw [alistGet, if_pos hp] at h
      injection h with h
      subst hp
      subst h
      exact List.mem_cons_self _ _
    · rw [alistGet, if_neg hp] at h
      exact List.mem_cons_of_mem _ (ih h)

theorem dimsOf_of_all_num (xs : List Json) (h : xs.all isNonnegNum = true) :
    dimsOf xs = .ok (xs.filterMap jnum) := by
  induction xs with
  | nil => rfl
  | cons x rest ih =>
    rw [List.all_cons, Bool.and_eq_true] at h
    obtain ⟨h1, h2⟩ := h
    cases x <;> simp [isNonnegNum] at h1
    simp [dimsOf, jnum, ih h2]

theorem numElements_eq_prod (dims : List Int) : numElements dims = dims.prod := by
  rw [numElements, List.prod_eq_foldl]

theorem isWFDesc_elim (v : Json) (h : isWFDesc v = true) :
    ∃ fs s xs, v = Json.obj fs ∧ objGet fs "dtype" = some (Json.str s) ∧
      objGet fs "shape" = some (Json.arr xs) ∧ xs.all isNonnegNum = true := by
  cases v with
  | obj fs =>
    rw [isWFDesc, Bool.and_eq_true] at h
    obtain ⟨h1, h2⟩ := h
    cases hd : objGet fs "dtype" with
    | none => rw [hd] at h1; simp at h1
    | some j =>
      cases j <;> rw [hd] at h1 <;> simp at h1
      case str s =>
        cases hs : objGet fs "shape" with
        | none => rw [hs] at h2; simp at h2
        | some j2 =>
          cases j2 <;> rw [hs] at h2 <;> simp at h2
          case arr xs =>
            exact ⟨fs, s, xs, rfl, hd, hs, by simpa using h2⟩
  | null => simp [isWFDesc] at h
  | bool b => simp [isWFDesc] at h
  | num n => simp [isWFDesc] at h
  | str s => simp [isWFDesc] at h
  | arr xs => simp [isWFDesc] at h

theorem aggStep_wf_eq (st : AggState) (kv : String × Json)
    (hk : ¬ kv.1 = "__metadata__") (hwf : isWFDesc kv.2 = true) :
    aggStep st kv =
      .ok { dtypes :=
              match alistGet st.dtypes (dtypeAtom kv.2) with
              | some c =>
                alistSet st.dtypes (dtypeAtom kv.2) (c + (shapeDims kv.2).prod)
              | none => st.dtypes ++ [(dtypeAtom kv.2, (shapeDims kv.2).prod)],
            total := st.total + (shapeDims kv.2).prod } := by
  obtain ⟨fs, s, xs, hv, hd, hs, hall⟩ := isWFDesc_elim kv.2 hwf
  have hdt : getItem kv.2 "dtype" = .ok (Json.str s) := by
    rw [hv]; simp [getItem, hd]
  have hshape : getShape kv.2 = .ok (xs.filterMap jnum) := by
    rw [hv]; simp [getShape, getItem, hs, dimsOf_of_all_num xs hall]
  have hda : dtypeAtom kv.2 = .str s := by
    rw [hv]; simp [dtypeAtom, hd, toAtom]
  have hsd : shapeDims kv.2 = xs.filterMap jnum := by
    rw [hv]; simp [shapeDims, hs]
  rw [aggStep, if_neg hk, hdt, hshape, hda, hsd]
  simp only [numElements_eq_prod]
  cases halist : alistGet st.dtypes (JAtom.str s) <;>
    simp [bucketAdd, toAtom, halist]

theorem aggregateFrom_wf (h : List (String × Json)) :
    ∀ st, isWFHeader h = true →
      ∃ st', aggregateFrom st h = .ok st' ∧
        st'.total = st.total + specGrandTotal h ∧
        bucketSum st'.dtypes = bucketSum st.dtypes + specGrandTotal h ∧
        st'.dtypes.map Prod.fst = firstSeenFrom (st.dtypes.map Prod.fst) h := by
  induction h with
  | nil =>
    intro st _
    exact ⟨st, rfl, by simp [specGrandTotal], by simp [specGrandTotal], rfl⟩
  | cons kv rest ih =>
    intro st hwf
    rw [isWFHeader, List.all_cons, Bool.and_eq_true] at hwf
    obtain ⟨h1, h2⟩ := hwf
    by_cases hk : kv.1 = "__metadata__"
    · have hstep : aggStep st kv = .ok st := by simp [aggStep, hk]
      obtain ⟨st', he, ht, hb, hkeys⟩ := ih st h2
      refine ⟨st', by simp [aggregateFrom, hstep, he], ?_, ?_, ?_⟩
      · rw [ht]; simp [specGrandTotal, hk]
      · rw [hb]; simp [specGrandTotal, hk]
      · rw [hkeys]; simp [firstSeenFrom, hk]
    · have hwfd : isWFDesc kv.2 = true := by
        rw [entryWF] at h1
        simpa [hk] using h1
      cases halist : alistGet st.dtypes (dtypeAtom kv.2) with
      | some c =>
        have hstep : aggStep st kv =
            .ok ⟨alistSet st.dtypes (dtypeAtom kv.2) (c + (shapeDims kv.2).prod),
              st.total + (shapeDims kv.2).prod⟩ := by
          rw [aggStep_wf_eq st kv hk hwfd, halist]
        have hmem : dtypeAtom kv.2 ∈ st.dtypes.map Prod.fst := by
          by_contra hnot
          rw [← alistGet_none_iff] at hnot
          rw [hnot] at halist
          exact Option.noConfusion halist
        obtain ⟨st', he, ht, hb, hkeys⟩ :=
          ih ⟨alistSet st.dtypes (dtypeAtom kv.2) (c + (shapeDims kv.2).prod),
            st.total + (shapeDims kv.2).prod⟩ h2
        refine ⟨st', by simp [aggregateFrom, hstep, he], ?_, ?_, ?_⟩
        · rw [ht]; simp [specGrandTotal, hk]; ring
        · rw [hb]
          simp only [alistGet_some_sum st.dtypes (dtypeAtom kv.2) c
            ((shapeDims kv.2).prod) halist]
          simp [specGrandTotal, hk]; ring
        · rw [hkeys]
          simp [alistSet_map_fst, firstSeenFrom, hk, hmem]
      | none =>
        have hstep : aggStep st kv =
            .ok ⟨st.dtypes ++ [(dtypeAtom kv.2, (shapeDims kv.2).prod)],
              st.total + (shapeDims kv.2).prod⟩ := by
          rw [aggStep_wf_eq st kv hk hwfd, halist]
        have hmem : dtypeAtom kv.2 ∉ st.dtypes.map Prod.fst :=
          (alistGet_none_iff st.dtypes (dtypeAtom kv.2)).mp halist
        obtain ⟨st', he, ht, hb, hkeys⟩ :=
          ih ⟨st.dtypes ++ [(dtypeAtom kv.2, (shapeDims kv.2).prod)],
            st.total + (shapeDims kv.2).prod⟩ h2
        refine ⟨st', by simp [aggregateFrom, hstep, he], ?_, ?_, ?_⟩
        · rw [ht]; simp [specGrandTotal, hk]; ring
        · rw [hb]; simp [bucketSum, specGrandTotal, hk]; ring
        · rw [hkeys]
          simp [firstSeenFrom, hk, hmem]

theorem aggregateFrom_append (l1 l2 : List (String × Json)) :
    ∀ st, aggregateFrom st (l1 ++ l2) =
      match aggregateFrom st l1 with
      | .ok st' => aggregateFrom st' l2
      | .error e => .error e := by
  induction l1 with
  | nil => intro st; rfl
  | cons kv rest ih =>
    intro st
    cases hstep : aggStep st kv with
    | error e => simp [aggregateFrom, hstep]
    | ok st' => simp [aggregateFrom, hstep, ih st']

theorem aggregateFrom_allmeta (h : List (String × Json)) :
    ∀ st, (∀ kv ∈ h, kv.1 = "__metadata__") → aggregateFrom st h = .ok st := by
  induction h with
  | nil => intro st _; rfl
  | cons kv rest ih =>
    intro st hm
    have hk : kv.1 = "__metadata__" := hm kv (List.mem_cons_self _ _)
    have hstep : aggStep st kv = .ok st := by simp [aggStep, hk]
    simp [aggregateFrom, hstep,
      ih st (fun x hx => hm x (List.mem_cons_of_mem _ hx))]

theorem bucketAdd_keys_mono (l : List (JAtom × Int)) (d : Json) (n : Int)
    (dts : List (JAtom × Int)) (h : bucketAdd l d n = .ok dts) :
    ∀ x ∈ l.map Prod.fst, x ∈ dts.map Prod.fst := by
  rw [bucketAdd] at h
  cases ha : toAtom d with
  | none => simp only [ha] at h; exact Except.noConfusion h
  | some a =>
    simp only [ha] at h
    cases hg : alistGet l a with
    | some c =>
      simp only [hg, Except.ok.injEq] at h
      subst h
      rw [alistSet_map_fst]
      exact fun x hx => hx
    | none =>
      simp only [hg, Except.ok.injEq] at h
      subst h
      intro x hx
      simp only [List.map_append, List.mem_append]
      exact Or.inl hx

theorem bucketAdd_ok_mem (l : List (JAtom × Int)) (d : Json) (n : Int)
    (dts : List (JAtom × Int)) (h : bucketAdd l d n = .ok dts) :
    ∃ a, toAtom d = some a ∧ a ∈ dts.map Prod.fst := by
  rw [bucketAdd] at h
  cases ha : toAtom d with
  | none => simp only [ha] at h; exact Except.noConfusion h
  | some a =>
    simp only [ha] at h
    refine ⟨a, rfl, ?_⟩
    cases hg : alistGet l a with
    | some c =>
      simp only [hg, Except.ok.injEq] at h
      subst h
      rw [alistSet_map_fst]
      exact List.mem_map_of_mem Prod.fst (alistGet_mem l a c hg)
    | none =>
      simp only [hg, Except.ok.injEq] at h
      subst h
      simp

theorem aggStep_keys_mono (st : AggState) (kv : String × Json) (st₂ : AggState)
    (h : aggStep st kv = .ok st₂) :
    ∀ x ∈ st.dtypes.map Prod.fst, x ∈ st₂.dtypes.map Prod.fst := by
  rw [aggStep] at h
  by_cases hk : kv.1 = "__metadata__"
  · rw [if_pos hk] at h
    injection h with h
    subst h
    exact fun x hx => hx
  · rw [if_neg hk] at h
    cases hd : getItem kv.2 "dtype" with
    | error e => simp only [hd] at h; exact Except.noConfusion h
    | ok d =>
      simp only [hd] at h
      cases hs : getShape kv.2 with
      | error e => simp only [hs] at h; exact Except.noConfusion h
      | ok dims =>
        simp only [hs] at h
        cases hb : bucketAdd st.dtypes d (numElements dims) with
        | error e => simp only [hb] at h; exact Except.noConfusion h
        | ok dts =>
          simp only [hb, Except.ok.injEq] at h
          subst h
          exact bucketAdd_keys_mono st.dtypes d (numElements dims) dts hb

theorem aggStep_ok_nonmeta_mem (st : AggState) (kv : String × Json)
    (st₂ : AggState) (hk : ¬ kv.1 = "__metadata__")
    (h : aggStep st kv = .ok st₂) :
    ∃ a, a ∈ st₂.dtypes.map Prod.fst := by
  rw [aggStep, if_neg hk] at h
  cases hd : getItem kv.2 "dtype" with
  | error e => simp only [hd] at h; exact Except.noConfusion h
  | ok d =>
    simp only [hd] at h
    cases hs : getShape kv.2 with
    | error e => simp only [hs] at h; exact Except.noConfusion h
    | ok dims =>
      simp only [hs] at h
      cases hb : bucketAdd st.dtypes d (numElements dims) with
      | error e => simp only [hb] at h; exact Except.noConfusion h
      | ok dts =>
        simp only [hb, Except.ok.injEq] at h
        subst h
        obtain ⟨a, _, ha⟩ := bucketAdd_ok_mem st.dtypes d (numElements dims) dts hb
        exact ⟨a, ha⟩

theorem aggregateFrom_keys_mono (l : List (String × Json)) :
    ∀ st st', aggregateFrom st l = .ok st' →
      ∀ x ∈ st.dtypes.map Prod.fst, x ∈ st'.dtypes.map Prod.fst := by
  induction l with
  | nil =>
    intro st st' h
    injection h with h
    subst h
    exact fun x hx => hx
  | cons kv rest ih =>
    intro st st' h
    rw [aggregateFrom] at h
    cases hstep : aggStep st kv with
    | error e => simp only [hstep] at h; exact Except.noConfusion h
    | ok st₂ =>
      simp only [hstep] at h
      intro x hx
      exact ih st₂ st' h x (aggStep_keys_mono st kv st₂ hstep x hx)

theorem reportLines_ok (t : Int) (ht : ¬ t = 0) (l : List (JAtom × Int)) :
    reportLines t l = .ok (l.map (fmtLine t)) := by
  induction l with
  | nil => rfl
  | cons p rest ih => simp [reportLines, ht, ih]

theorem reportLines_zero_cons (p : JAtom × Int) (rest : List (JAtom × Int)) :
    reportLines 0 (p :: rest) = .error .zeroDivisionError := by
  simp [reportLines]

theorem strAppend_assoc (a b c : String) : a ++ b ++ c = a ++ (b ++ c) := by
  apply String.ext
  simp [String.data_append, List.append_assoc]

theorem digitChar_isDigit (n : Nat) : (digitChar n).isDigit = true := by
  have key : ∀ m : Fin 10, (Char.ofNat (48 + m.val)).isDigit = true := by decide
  have h : n % 10 < 10 := Nat.mod_lt _ (by decide)
  exact key ⟨n % 10, h⟩

theorem twoDecString_shape (h : Int) :
    ∃ a c1 c2, twoDecString h = a ++ "." ++ String.mk [c1, c2] ∧
      c1.isDigit = true ∧ c2.isDigit = true :=
  ⟨(if h < 0 then "-" else "") ++ toString (h.natAbs / 100),
    digitChar (h.natAbs / 10 % 10), digitChar (h.natAbs % 10),
    rfl, digitChar_isDigit _, digitChar_isDigit _⟩

theorem roundHalfEven_zero (t : Int) (ht : 0 < t) : roundHalfEven 0 t = 0 := by
  unfold roundHalfEven
  have h1 : Int.emod 0 t = 0 := Int.zero_emod t
  have h2 : Int.ediv 0 t = 0 := Int.zero_ediv t
  rw [h1, h2]
  rw [if_pos (by omega : 2 * (0 : Int) < t)]

theorem formatPct_zero (t : Int) (ht : 0 < t) : formatPct 0 t = "0.00" := by
  rw [formatPct, show (0 : Int) * 10000 = 0 by ring, roundHalfEven_zero t ht]
  decide

theorem fmtLine_zero (t : Int) (ht : 0 < t) (d : JAtom) :
    fmtLine t (d, 0) = pyStr d ++ ": 0 elements (0.00%)" := by
  rw [fmtLine]
  show pyStr d ++ ": " ++ toString (0 : Int) ++ " elements (" ++
    formatPct 0 t ++ "%)" = _
  rw [formatPct_zero t ht, show toString (0 : Int) = "0" from rfl]
  simp only [strAppend_assoc]
  congr 1

theorem specGrandTotal_nonneg (h : List (String × Json))
    (hw : isWFHeader h = true) : 0 ≤ specGrandTotal h := by
  induction h with
  | nil => simp [specGrandTotal]
  | cons kv rest ih =>
    rw [isWFHeader, List.all_cons, Bool.and_eq_true] at hw
    obtain ⟨h1, h2⟩ := hw
    have hrest : 0 ≤ specGrandTotal rest := ih h2
    rw [specGrandTotal]
    by_cases hk : kv.1 = "__metadata__"
    · simpa [hk] using hrest
    · rw [if_neg hk]
      have hwfd : isWFDesc kv.2 = true := by
        rw [entryWF] at h1
        simpa [hk] using h1
      have hpos : 0 ≤ (shapeDims kv.2).prod := by
        obtain ⟨fs, s, xs, hv, hd, hs, hall⟩ := isWFDesc_elim kv.2 hwfd
        rw [hv]
        simp only [shapeDims, hs]
        apply List.prod_nonneg
        intro d hd2
        rw [List.mem_filterMap] at hd2
        obtain ⟨j, hj, hjn⟩ := hd2
        cases j <;> simp [jnum] at hjn
        case num m =>
          rw [List.all_eq_true] at hall
          have := hall _ hj
          rw [isNonnegNum] at this
          subst hjn
          exact of_decide_eq_true this
      omega

theorem aggStep_missing_err (k : String)
    (fs : List (String × Json)) (hk : ¬ k = "__metadata__")
    (hm : objGet fs "dtype" = none ∨ objGet fs "shape" = none) :
    ∃ m, (m = "dtype" ∨ m = "shape") ∧ objGet fs m = none ∧
      ∀ st, aggStep st (k, Json.obj fs) = .error (.keyError m) := by
  cases hd : objGet fs "dtype" with
  | none =>
    refine ⟨"dtype", Or.inl rfl, hd, fun st => ?_⟩
    rw [aggStep, if_neg hk]
    simp [getItem, hd]
  | some j =>
    have hs : objGet fs "shape" = none := by
      rcases hm with hm | hm
      · rw [hd] at hm; exact Option.noConfusion hm
      · exact hm
    refine ⟨"shape", Or.inr rfl, hs, fun st => ?_⟩
    rw [aggStep, if_neg hk]
    simp [getItem, getShape, hd, hs]

theorem aggregateFrom_bad_mid (pre post : List (String × Json))
    (kv : String × Json) (e₀ : Err) (hbad : ∀ st, aggStep st kv = .error e₀) :
    ∀ st, ∃ e, aggregateFrom st (pre ++ kv :: post) = .error e := by
  induction pre with
  | nil =>
    intro st
    exact ⟨e₀, by simp [aggregateFrom, hbad st]⟩
  | cons a pre ih =>
    intro st
    cases hstep : aggStep st a with
    | error e => exact ⟨e, by simp [aggregateFrom, hstep]⟩
    | ok st2 =>
      obtain ⟨e, he⟩ := ih st2
      exact ⟨e, by simp [aggregateFrom, hstep, he]⟩

/-! Concrete inputs used by the witness and counterexample theorems. -/

/-- Example header 1 of the spec: two F32 tensors of 6 and 4 elements. -/
def hEx1 : List (String × Json) :=
  [("a", Json.obj [("dtype", Json.str "F32"),
     ("shape", Json.arr [Json.num 2, Json.num 3])]),
   ("b", Json.obj [("dtype", Json.str "F32"), ("shape", Json.arr [Json.num 4])])]

/-- Example header 2 of the spec: F32 and I64 tensors plus metadata. -/
def hEx2 : List (String × Json) :=
  [("a", Json.obj [("dtype", Json.str "F32"), ("shape", Json.arr [Json.num 2])]),
   ("b", Json.obj [("dtype", Json.str "I64"), ("shape", Json.arr [Json.num 2])]),
   ("__metadata__", Json.obj [("format", Json.str "pt")])]

/-- A header whose only tensor has shape `[0]`: zero elements, one bucket. -/
def hZeroDim : List (String × Json) :=
  [("a", Json.obj [("dtype", Json.str "F32"), ("shape", Json.arr [Json.num 0])])]

/-- A descriptor with shape `[0]`. -/
def vZero : Json :=
  Json.obj [("dtype", Json.str "F32"), ("shape", Json.arr [Json.num 0])]

/-- A single-tensor tail with 3 I64 elements. -/
def postEx : List (String × Json) :=
  [("b", Json.obj [("dtype", Json.str "I64"), ("shape", Json.arr [Json.num 3])])]

/-- A parser that rejects every input, standing in for `json.loads` on
malformed text. -/
def failParse : List Nat → Except String Json :=
  fun _ => Except.error "Expecting value"

/-- An 8-byte file whose length prefix decodes to 20. -/
def fileEx : List Nat := [20, 0, 0, 0, 0, 0, 0, 0]

/-! The claims. -/

/-- C1: for every well-formed header, the aggregation loop succeeds, the
grand total it computes equals the sum over all non-metadata entries of the
product of the entry's shape dimensions (an empty shape contributing 1), and
the per-dtype bucket counts sum to that grand total. -/
theorem C1_aggregation_invariant (h : List (String × Json))
    (hw : isWFHeader h = true) :
    ∃ st, aggregate h = .ok st ∧ st.total = specGrandTotal h ∧
      bucketSum st.dtypes = st.total := by
  obtain ⟨st, he, ht, hb, _⟩ := aggregateFrom_wf h ⟨[], 0⟩ hw
  refine ⟨st, he, ?_, ?_⟩
  · simpa using ht
  · rw [hb, ht]
    simp [bucketSum]

theorem C1_aggregation_invariant_witness :
    isWFHeader hEx1 = true ∧
    (∃ st, aggregate hEx1 = .ok st ∧ st.total = specGrandTotal hEx1 ∧
      bucketSum st.dtypes = st.total) :=
  ⟨by decide, C1_aggregation_invariant hEx1 (by decide)⟩

/-- C2: a `__metadata__` entry contributes nothing to any dtype bucket and
nothing to the grand total, whatever its value is: aggregating a header that
contains such an entry equals aggregating the header with it removed. -/
theorem C2_metadata_inert (pre post : List (String × Json)) (m : Json) :
    aggregate (pre ++ ("__metadata__", m) :: post) = aggregate (pre ++ post) := by
  rw [aggregate, aggregate,
    aggregateFrom_append pre (("__metadata__", m) :: post) ⟨[], 0⟩,
    aggregateFrom_append pre post ⟨[], 0⟩]
  cases hpre : aggregateFrom ⟨[], 0⟩ pre with
  | error e => rfl
  | ok st' => simp [aggregateFrom, aggStep]

/-- C3: a file of fewer than 8 bytes makes the program print exactly
`File too short`, exit with status 1, and issue no read after the initial
8-byte read attempt. -/
theorem C3_short_file (parse : List Nat → Except String Json)
    (file : List Nat) (hlen : file.length < 8) :
    (runWithParser parse file).stdout = ["File too short"] ∧
    exitCode (runWithParser parse file) = 1 ∧
    (runWithParser parse file).reads = [8] := by
  refine ⟨?_, ?_, ?_⟩ <;> simp [runWithParser, hlen, exitCode, exitOf]

theorem C3_short_file_witness :
    ([1, 2, 3] : List Nat).length < 8 ∧
    ((runWithParser failParse [1, 2, 3]).stdout = ["File too short"] ∧
      exitCode (runWithParser failParse [1, 2, 3]) = 1 ∧
      (runWithParser failParse [1, 2, 3]).reads = [8]) :=
  ⟨by decide, C3_short_file failParse [1, 2, 3] (by decide)⟩

/-- C5: on a file of at least 8 bytes the header length `H` is the unsigned
64-bit little-endian value of the first 8 bytes; `Header size: <H>` is the
first line printed, for every possible parser outcome (hence before any
parsing effect), and the second read requests exactly `H` bytes. -/
theorem C5_header_size_line (parse : List Nat → Except String Json)
    (file : List Nat) (hlen : 8 ≤ file.length) :
    (runWithParser parse file).stdout.head? =
      some ("Header size: " ++ toString (readLE64 (file.take 8))) ∧
    (runWithParser parse file).reads = [8, readLE64 (file.take 8)] := by
  have hge : ¬ file.length < 8 := by omega
  cases hp : parse ((file.drop 8).take (readLE64 (file.take 8))) with
  | error e => constructor <;> simp [runWithParser, hge, hp]
  | ok j => cases j <;> constructor <;> simp [runWithParser, hge, hp]

theorem C5_header_size_line_witness :
    8 ≤ (fileEx).length ∧
    ((runWithParser failParse fileEx).stdout.head? =
      some ("Header size: " ++ toString (readLE64 (fileEx.take 8))) ∧
      (runWithParser failParse fileEx).reads = [8, readLE64 (fileEx.take 8)]) :=
  ⟨by decide, C5_header_size_line failParse fileEx (by decide)⟩

/-- C8: when the header bytes do not parse as JSON, the run stops at the
parse step with a `MalformedHeader` condition carrying the underlying parse
error, exits with status 1, and prints nothing beyond the header-size line —
aggregation and reporting are never reached. -/
theorem C8_malformed_header (parse : List Nat → Except String Json)
    (file : List Nat) (e : String) (hlen : 8 ≤ file.length)
    (hp : parse ((file.drop 8).take (readLE64 (file.take 8))) = .error e) :
    (runWithParser parse file).stdout =
      ["Header size: " ++ toString (readLE64 (file.take 8))] ∧
    (runWithParser parse file).exits = .error (.malformedHeader e) ∧
    exitCode (runWithParser parse file) = 1 := by
  have hge : ¬ file.length < 8 := by omega
  refine ⟨?_, ?_, ?_⟩ <;> simp [runWithParser, hge, hp, exitCode, exitOf]

theorem C8_malformed_header_witness :
    8 ≤ (fileEx).length ∧
    failParse ((fileEx.drop 8).take (readLE64 (fileEx.take 8))) =
      .error "Expecting value" ∧
    ((runWithParser failParse fileEx).stdout =
      ["Header size: " ++ toString (readLE64 (fileEx.take 8))] ∧
      (runWithParser failParse fileEx).exits =
        .error (.malformedHeader "Expecting value") ∧
      exitCode (runWithParser failParse fileEx) = 1) :=
  ⟨by decide, rfl, C8_malformed_header failParse fileEx "Expecting value" (by decide) rfl⟩

/-- C7: a non-metadata entry whose value lacks the field `dtype` or the
field `shape` makes the run fail fatally (exit status 1) with no report;
when the entries before it are acceptable, the failure is the `KeyError`
raised by the subscripting, naming the missing field key (`dtype` is probed
first, as the code does).  The entry is never silently skipped or defaulted. -/
theorem C7_missing_field (pre post : List (String × Json)) (k : String)
    (fs : List (String × Json)) (hk : k ≠ "__metadata__")
    (hm : objGet fs "dtype" = none ∨ objGet fs "shape" = none) :
    (∃ e, analyzeAndReport (pre ++ (k, Json.obj fs) :: post) =
        (["\nTensor analysis:"], Except.error e)) ∧
    exitOf (analyzeAndReport (pre ++ (k, Json.obj fs) :: post)).2 = 1 ∧
    ((∀ kv ∈ pre, entryWF kv = true) →
      ∃ m, (m = "dtype" ∨ m = "shape") ∧ objGet fs m = none ∧
        analyzeAndReport (pre ++ (k, Json.obj fs) :: post) =
          (["\nTensor analysis:"], Except.error (Err.keyError m))) := by
  obtain ⟨m, hmor, hmnone, hbad⟩ := aggStep_missing_err k fs hk hm
  obtain ⟨e, he⟩ :=
    aggregateFrom_bad_mid pre post (k, Json.obj fs) (.keyError m) hbad ⟨[], 0⟩
  have hrep : analyzeAndReport (pre ++ (k, Json.obj fs) :: post) =
      (["\nTensor analysis:"], Except.error e) := by
    simp [analyzeAndReport, aggregate, he]
  refine ⟨⟨e, hrep⟩, by rw [hrep]; rfl, ?_⟩
  intro hpre
  have hwfpre : isWFHeader pre = true := by
    rw [isWFHeader, List.all_eq_true]
    exact hpre
  obtain ⟨st₁, hpre_ok, _, _, _⟩ := aggregateFrom_wf pre ⟨[], 0⟩ hwfpre
  have hagg : aggregate (pre ++ (k, Json.obj fs) :: post) =
      .error (.keyError m) := by
    rw [aggregate, aggregateFrom_append pre _ ⟨[], 0⟩]
    simp only [hpre_ok]
    simp [aggregateFrom, hbad st₁]
  exact ⟨m, hmor, hmnone, by simp [analyzeAndReport, hagg]⟩

theorem C7_missing_field_witness :
    ("w" : String) ≠ "__metadata__" ∧
    (objGet [("foo", Json.null)] "dtype" = none ∨
      objGet [("foo", Json.null)] "shape" = none) ∧
    ((∃ e, analyzeAndReport ([] ++ ("w", Json.obj [("foo", Json.null)]) :: []) =
        (["\nTensor analysis:"], Except.error e)) ∧
      exitOf (analyzeAndReport
        ([] ++ ("w", Json.obj [("foo", Json.null)]) :: [])).2 = 1 ∧
      ((∀ kv ∈ ([] : List (String × Json)), entryWF kv = true) →
        ∃ m, (m = "dtype" ∨ m = "shape") ∧
          objGet [("foo", Json.null)] m = none ∧
          analyzeAndReport ([] ++ ("w", Json.obj [("foo", Json.null)]) :: []) =
            (["\nTensor analysis:"], Except.error (Err.keyError m)))) :=
  ⟨by decide, Or.inl rfl,
    C7_missing_field [] [] "w" [("foo", Json.null)] (by decide) (Or.inl rfl)⟩

/-- C9: a header with no non-metadata entries (empty, or metadata only)
makes the program print both section header lines, no per-dtype rows, and
exit cleanly with status 0: the report loop iterates over an empty bucket
mapping, so no division happens. -/
theorem C9_metadata_only_success (h : List (String × Json))
    (hm : ∀ kv ∈ h, kv.1 = "__metadata__") :
    analyzeAndReport h =
      (["\nTensor analysis:",
        "\nData Type Distribution (by number of elements):"], .ok ()) ∧
    exitOf (analyzeAndReport h).2 = 0 := by
  have hagg : aggregate h = .ok ⟨[], 0⟩ := aggregateFrom_allmeta h ⟨[], 0⟩ hm
  have hall : analyzeAndReport h =
      (["\nTensor analysis:",
        "\nData Type Distribution (by number of elements):"], .ok ()) := by
    simp [analyzeAndReport, hagg, reportLines]
  exact ⟨hall, by rw [hall]; rfl⟩

theorem C9_metadata_only_success_witness :
    (∀ kv ∈ ([("__metadata__", Json.null)] : List (String × Json)),
      kv.1 = "__metadata__") ∧
    (analyzeAndReport [("__metadata__", Json.null)] =
      (["\nTensor analysis:",
        "\nData Type Distribution (by number of elements):"], .ok ()) ∧
      exitOf (analyzeAndReport [("__metadata__", Json.null)]).2 = 0) :=
  ⟨by decide, C9_metadata_only_success [("__metadata__", Json.null)] (by decide)⟩

/-- C4: on a well-formed header the aggregation succeeds, the bucket keys
come out in first-seen order (the order of first occurrence of each dtype
scanning the entries in header order), and whenever the grand total is
non-zero (the successful-run condition) the report loop emits exactly one
line `<dtype>: <count> elements (<percentage>%)` per bucket, in bucket
order, the percentage being `count / grand_total * 100` rendered with
exactly two digits after the decimal point. -/
theorem C4_report_format_order (h : List (String × Json))
    (hw : isWFHeader h = true) :
    ∃ st, aggregate h = .ok st ∧
      st.dtypes.map Prod.fst = firstSeenDtypes h ∧
      (st.total ≠ 0 →
        reportLines st.total st.dtypes = .ok (st.dtypes.map (fmtLine st.total))) ∧
      ∀ p ∈ st.dtypes, ∃ a c1 c2,
        formatPct p.2 st.total = a ++ "." ++ String.mk [c1, c2] ∧
          c1.isDigit = true ∧ c2.isDigit = true := by
  obtain ⟨st, he, _, _, hkeys⟩ := aggregateFrom_wf h ⟨[], 0⟩ hw
  refine ⟨st, he, ?_, fun ht => reportLines_ok st.total ht st.dtypes, ?_⟩
  · simpa [firstSeenDtypes] using hkeys
  · intro p _
    exact twoDecString_shape (roundHalfEven (p.2 * 10000) st.total)

theorem C4_report_format_order_witness :
    isWFHeader hEx2 = true ∧
    (∃ st, aggregate hEx2 = .ok st ∧
      st.dtypes.map Prod.fst = firstSeenDtypes hEx2 ∧
      (st.total ≠ 0 →
        reportLines st.total st.dtypes = .ok (st.dtypes.map (fmtLine st.total))) ∧
      ∀ p ∈ st.dtypes, ∃ a c1 c2,
        formatPct p.2 st.total = a ++ "." ++ String.mk [c1, c2] ∧
          c1.isDigit = true ∧ c2.isDigit = true) :=
  ⟨by decide, C4_report_format_order hEx2 (by decide)⟩

/-- C6 counterexample: the claim that a zero grand total always causes a
`ZeroDivisionError` with a necessarily empty bucket mapping is false on both
sides: `hZeroDim` (one tensor of shape `[0]`) has grand total 0 with a
NON-empty bucket mapping, while the empty header has grand total 0 and the
run completes successfully, with no division ever attempted. -/
theorem C6_counterexample :
    (∃ st, aggregate hZeroDim = Except.ok st ∧ st.total = 0 ∧ st.dtypes ≠ []) ∧
    analyzeAndReport ([] : List (String × Json)) =
      (["\nTensor analysis:",
        "\nData Type Distribution (by number of elements):"], Except.ok ()) := by
  constructor
  · exact ⟨⟨[(JAtom.str "F32", 0)], 0⟩, rfl, rfl, by decide⟩
  · rfl

/-- C6 amended: for a parsed header whose grand total is zero, the run
divides by zero and fails with a `ZeroDivisionError` exactly when some
non-metadata entry exists (the bucket mapping is then non-empty); when every
entry is metadata the bucket mapping is empty, no division occurs, and the
run succeeds. -/
theorem C6_zero_total_amended (h : List (String × Json)) (st : AggState)
    (ha : aggregate h = .ok st) (h0 : st.total = 0) :
    ((∃ kv ∈ h, kv.1 ≠ "__metadata__") →
      st.dtypes ≠ [] ∧
      analyzeAndReport h =
        (["\nTensor analysis:",
          "\nData Type Distribution (by number of elements):"],
          .error .zeroDivisionError)) ∧
    ((∀ kv ∈ h, kv.1 = "__metadata__") →
      st.dtypes = [] ∧
      analyzeAndReport h =
        (["\nTensor analysis:",
          "\nData Type Distribution (by number of elements):"], .ok ())) := by
  constructor
  · rintro ⟨kv, hmem, hk⟩
    have ha0 := ha
    obtain ⟨pre, post, hsplit⟩ := List.append_of_mem hmem
    subst hsplit
    rw [aggregate, aggregateFrom_append pre (kv :: post) ⟨[], 0⟩] at ha
    cases hpre : aggregateFrom ⟨[], 0⟩ pre with
    | error e =>
      simp only [hpre] at ha
      exact Except.noConfusion ha
    | ok st₁ =>
      simp only [hpre] at ha
      rw [aggregateFrom] at ha
      cases hstep : aggStep st₁ kv with
      | error e =>
        simp only [hstep] at ha
        exact Except.noConfusion ha
      | ok st₂ =>
        simp only [hstep] at ha
        obtain ⟨a, hamem⟩ := aggStep_ok_nonmeta_mem st₁ kv st₂ hk hstep
        have hak : a ∈ st.dtypes.map Prod.fst :=
          aggregateFrom_keys_mono post st₂ st ha a hamem
        have hne : st.dtypes ≠ [] := by
          intro hnil
          rw [hnil] at hak
          simp at hak
        obtain ⟨p, rest, hcons⟩ := List.exists_cons_of_ne_nil hne
        have hrl : reportLines st.total st.dtypes = .error .zeroDivisionError := by
          rw [h0, hcons]
          exact reportLines_zero_cons p rest
        exact ⟨hne, by simp [analyzeAndReport, ha0, hrl]⟩
  · intro hall
    have hagg : aggregate h = .ok ⟨[], 0⟩ := aggregateFrom_allmeta h ⟨[], 0⟩ hall
    have hst : st = ⟨[], 0⟩ := by
      injection (ha.symm.trans hagg) with h'
    subst hst
    exact ⟨rfl, by simp [analyzeAndReport, hagg, reportLines]⟩

theorem C6_zero_total_amended_witness :
    aggregate hZeroDim = Except.ok ⟨[(JAtom.str "F32", 0)], 0⟩ ∧
    (⟨[(JAtom.str "F32", 0)], 0⟩ : AggState).total = 0 ∧
    (((∃ kv ∈ hZeroDim, kv.1 ≠ "__metadata__") →
      (⟨[(JAtom.str "F32", 0)], 0⟩ : AggState).dtypes ≠ [] ∧
      analyzeAndReport hZeroDim =
        (["\nTensor analysis:",
          "\nData Type Distribution (by number of elements):"],
          .error .zeroDivisionError)) ∧
    ((∀ kv ∈ hZeroDim, kv.1 = "__metadata__") →
      (⟨[(JAtom.str "F32", 0)], 0⟩ : AggState).dtypes = [] ∧
      analyzeAndReport hZeroDim =
        (["\nTensor analysis:",
          "\nData Type Distribution (by number of elements):"], .ok ()))) :=
  ⟨rfl, rfl, C6_zero_total_amended hZeroDim ⟨[(JAtom.str "F32", 0)], 0⟩ rfl rfl⟩

/-- C10: a well-formed non-metadata entry whose shape contains a dimension 0
contributes 0 elements (its shape product is 0) yet still creates or retains
a bucket for its dtype; and when the grand total is positive while that
dtype's bucket count is 0, the report includes the row
`<dtype>: 0 elements (0.00%)` even though no element of that dtype exists. -/
theorem C10_zero_dim_entry (pre post : List (String × Json)) (k : String)
    (v : Json) (hw : isWFHeader (pre ++ (k, v) :: post) = true)
    (hk : k ≠ "__metadata__") (h0 : 0 ∈ shapeDims v) :
    (shapeDims v).prod = 0 ∧
    ∃ st, aggregate (pre ++ (k, v) :: post) = .ok st ∧
      dtypeAtom v ∈ st.dtypes.map Prod.fst ∧
      (st.total ≠ 0 → alistGet st.dtypes (dtypeAtom v) = some 0 →
        ∃ ls, reportLines st.total st.dtypes = .ok ls ∧
          (pyStr (dtypeAtom v) ++ ": 0 elements (0.00%)") ∈ ls) := by
  have hprod : (shapeDims v).prod = 0 := List.prod_eq_zero h0
  obtain ⟨st, he, ht, hb, hkeys⟩ :=
    aggregateFrom_wf (pre ++ (k, v) :: post) ⟨[], 0⟩ hw
  have hwf_kv : isWFDesc v = true := by
    rw [isWFHeader, List.all_eq_true] at hw
    have := hw (k, v) (by simp)
    rw [entryWF] at this
    simpa [hk] using this
  refine ⟨hprod, st, he, ?_, ?_⟩
  · have he2 := he
    rw [aggregateFrom_append pre ((k, v) :: post) ⟨[], 0⟩] at he2
    cases hpre : aggregateFrom ⟨[], 0⟩ pre with
    | error e =>
      simp only [hpre] at he2
      exact Except.noConfusion he2
    | ok st₁ =>
      simp only [hpre] at he2
      rw [aggregateFrom] at he2
      have hstep := aggStep_wf_eq st₁ (k, v) hk hwf_kv
      cases halist : alistGet st₁.dtypes (dtypeAtom v) with
      | some c =>
        simp only [halist] at hstep
        simp only [hstep] at he2
        have hm1 : dtypeAtom v ∈ st₁.dtypes.map Prod.fst := by
          by_contra hnot
          rw [← alistGet_none_iff] at hnot
          rw [hnot] at halist
          exact Option.noConfusion halist
        have hm2 : dtypeAtom v ∈
            (alistSet st₁.dtypes (dtypeAtom v)
              (c + (shapeDims v).prod)).map Prod.fst := by
          rw [alistSet_map_fst]
          exact hm1
        exact aggregateFrom_keys_mono post _ st he2 _ hm2
      | none =>
        simp only [halist] at hstep
        simp only [hstep] at he2
        have hm2 : dtypeAtom v ∈
            (st₁.dtypes ++ [(dtypeAtom v, (shapeDims v).prod)]).map Prod.fst := by
          simp
        exact aggregateFrom_keys_mono post _ st he2 _ hm2
  · intro htne hlook
    have htpos : 0 < st.total := by
      have hnn : 0 ≤ specGrandTotal (pre ++ (k, v) :: post) :=
        specGrandTotal_nonneg _ hw
      have ht2 : st.total = specGrandTotal (pre ++ (k, v) :: post) := by
        simpa using ht
      omega
    have hmem0 : (dtypeAtom v, 0) ∈ st.dtypes := alistGet_mem _ _ _ hlook
    refine ⟨st.dtypes.map (fmtLine st.total),
      reportLines_ok st.total htne st.dtypes, ?_⟩
    have hline := List.mem_map_of_mem (fmtLine st.total) hmem0
    rwa [fmtLine_zero st.total htpos (dtypeAtom v)] at hline

theorem C10_zero_dim_entry_witness :
    isWFHeader ([] ++ ("a", vZero) :: postEx) = true ∧
    ("a" : String) ≠ "__metadata__" ∧
    (0 : Int) ∈ shapeDims vZero ∧
    ((shapeDims vZero).prod = 0 ∧
    ∃ st, aggregate ([] ++ ("a", vZero) :: postEx) = .ok st ∧
      dtypeAtom vZero ∈ st.dtypes.map Prod.fst ∧
      (st.total ≠ 0 → alistGet st.dtypes (dtypeAtom vZero) = some 0 →
        ∃ ls, reportLines st.total st.dtypes = .ok ls ∧
          (pyStr (dtypeAtom vZero) ++ ": 0 elements (0.00%)") ∈ ls)) :=
  ⟨by decide, by decide, by decide,
    C10_zero_dim_entry [] postEx "a" vZero (by decide) (by decide) (by decide)⟩

end STA
